/-
Verification of the gdfs distributed file system (github.com/WineChord/gdfs)
against its natural-language specification.

Shallow embedding conventions:
  * Go strings that are manipulated character-wise are modelled as `List Char`;
    strings used as opaque keys are modelled as `String`.
  * Go maps are modelled as association lists (`List (κ × α)`), with the list
    order standing for one resolution of Go's nondeterministic iteration order;
    key distinctness (a Go map invariant) appears as a `Nodup` hypothesis where
    a property depends on it.  Go map reads of absent keys yield the zero value
    (`alFindD` with an explicit default).
  * Go int64 / int values are modelled as `Int` (`Nat` where the source value
    is manifestly non-negative); Go integer division truncates toward zero and
    is modelled by `Int.div`.
  * Go float64 values are modelled as exact rationals (`ℚ`): the claims about
    the aggregator concern the combining formula, not rounding.
  * Fallible operations return `Except`/`Option`; a Go runtime panic is
    modelled as `Option.none`.
  * The host filesystem mirror owned by the namenode is modelled as an
    association list from paths (component lists) to entries (directory, or
    file with its decoded block-list content).
-/
import Mathlib

/-! ### Association lists: the embedding of Go maps -/

/-- Lookup in an association list, `none` when the key is absent
(Go: `v, ok := m[k]` with `ok = false`). -/
def alFind {κ α : Type} [DecidableEq κ] (m : List (κ × α)) (k : κ) : Option α :=
  (m.find? (fun p => p.1 = k)).map Prod.snd

/-- Lookup with an explicit default (Go: `m[k]` yielding the zero value for
absent keys). -/
def alFindD {κ α : Type} [DecidableEq κ] (m : List (κ × α)) (k : κ) (d : α) : α :=
  (alFind m k).getD d

/-- Insertion (Go: `m[k] = v`): replaces in place when the key is present,
appends otherwise. -/
def alInsert {κ α : Type} [DecidableEq κ] : List (κ × α) → κ → α → List (κ × α)
  | [], k, v => [(k, v)]
  | (k', v') :: rest, k, v =>
      if k' = k then (k, v) :: rest else (k', v') :: alInsert rest k v

theorem alFind_nil {κ α : Type} [DecidableEq κ] (k : κ) :
    alFind ([] : List (κ × α)) k = none := rfl

theorem alFind_cons {κ α : Type} [DecidableEq κ] (k' : κ) (v' : α)
    (rest : List (κ × α)) (k : κ) :
    alFind ((k', v') :: rest) k = if k' = k then some v' else alFind rest k := by
  simp only [alFind, List.find?]
  by_cases h : k' = k <;> simp [h]

theorem alFind_alInsert_self {κ α : Type} [DecidableEq κ]
    (m : List (κ × α)) (k : κ) (v : α) :
    alFind (alInsert m k v) k = some v := by
  induction m with
  | nil => simp [alInsert, alFind_cons]
  | cons p rest ih =>
      obtain ⟨k', v'⟩ := p
      by_cases h : k' = k
      · simp [alInsert, h, alFind_cons]
      · simp [alInsert, h, alFind_cons, ih]

theorem alFind_alInsert_ne {κ α : Type} [DecidableEq κ]
    (m : List (κ × α)) (k k₀ : κ) (v : α) (h : k₀ ≠ k) :
    alFind (alInsert m k v) k₀ = alFind m k₀ := by
  have hne : k ≠ k₀ := fun hh => h hh.symm
  induction m with
  | nil => simp [alInsert, alFind_cons, alFind_nil, hne]
  | cons p rest ih =>
      obtain ⟨k', v'⟩ := p
      by_cases hk : k' = k
      · subst hk
        simp [alInsert, alFind_cons, hne]
      · simp only [alInsert, if_neg hk, alFind_cons]
        by_cases hk0 : k' = k₀ <;> simp [hk0, ih]

/-! ### Decimal digit strings (embedding of `strconv.Itoa`, `strconv.ParseInt`
and `fmt.Sprintf` with the `%08d` verb) -/

/-- Decimal digits of a natural number, least significant first; structural
recursion on a fuel bound so that the kernel can evaluate it. -/
def toDigitsRevF : Nat → Nat → List Nat
  | _, 0 => []
  | n, fuel + 1 => if n < 10 then [n] else n % 10 :: toDigitsRevF (n / 10) fuel

/-- Decimal digits of a natural number, least significant first. -/
def toDigitsRev (n : Nat) : List Nat := toDigitsRevF n (n + 1)

theorem toDigitsRevF_fuel_irrel :
    ∀ (fuel fuel' n : Nat), n < fuel → n < fuel' →
      toDigitsRevF n fuel = toDigitsRevF n fuel' := by
  intro fuel
  induction fuel with
  | zero => intro fuel' n h; omega
  | succ f ih =>
      intro fuel' n h h'
      cases fuel' with
      | zero => omega
      | succ f' =>
          simp only [toDigitsRevF]
          by_cases h10 : n < 10
          · simp [h10]
          · have hdiv : n / 10 < n := Nat.div_lt_self (by omega) (by omega)
            rw [if_neg h10, if_neg h10, ih f' (n / 10) (by omega) (by omega)]

/-- The recursive unfolding of `toDigitsRev`. -/
theorem toDigitsRev_eq (n : Nat) :
    toDigitsRev n = if n < 10 then [n] else n % 10 :: toDigitsRev (n / 10) := by
  show toDigitsRevF n (n + 1) = _
  by_cases h10 : n < 10
  · simp [toDigitsRevF, h10]
  · have hdiv : n / 10 < n := Nat.div_lt_self (by omega) (by omega)
    simp only [toDigitsRevF, if_neg h10]
    rw [toDigitsRevF_fuel_irrel n (n / 10 + 1) (n / 10) (by omega) (by omega)]
    rfl

/-- Character for one decimal digit. -/
def digitChar (d : Nat) : Char := Char.ofNat (48 + d)

/-- Decimal representation of a natural number as characters
(embedding of `strconv.Itoa` on non-negative input). -/
def natToDec (n : Nat) : List Char := (toDigitsRev n).reverse.map digitChar

/-- Numeric value of a decimal digit string. -/
def decToNat (l : List Char) : Nat := l.foldl (fun a c => a * 10 + (c.toNat - 48)) 0

/-- Embedding of `fmt.Sprintf` with verb `%08d`: the decimal representation
left-padded with zeros to (at least) width 8. -/
def pad8 (i : Nat) : List Char :=
  List.replicate (8 - (natToDec i).length) '0' ++ natToDec i

theorem toDigitsRev_ne_nil (n : Nat) : toDigitsRev n ≠ [] := by
  rw [toDigitsRev_eq]
  split <;> simp

theorem toDigitsRev_lt_ten (n : Nat) : ∀ d ∈ toDigitsRev n, d < 10 := by
  induction n using Nat.strong_induction_on with
  | _ n ih =>
    rw [toDigitsRev_eq]
    split
    · simpa using by omega
    · intro d hd
      rcases List.mem_cons.mp hd with h | h
      · omega
      · exact ih (n / 10) (Nat.div_lt_self (by omega) (by omega)) d h

theorem digitChar_toNat (d : Nat) (h : d < 10) : (digitChar d).toNat = 48 + d := by
  interval_cases d <;> rfl

theorem decToNat_append_digit (xs : List Char) (c : Char) :
    decToNat (xs ++ [c]) = 10 * decToNat xs + (c.toNat - 48) := by
  simp [decToNat, List.foldl_append]
  omega

theorem natToDec_step (n : Nat) (h : ¬ n < 10) :
    natToDec n = natToDec (n / 10) ++ [digitChar (n % 10)] := by
  simp [natToDec]
  rw [toDigitsRev_eq]
  simp [h]

theorem decToNat_natToDec (n : Nat) : decToNat (natToDec n) = n := by
  induction n using Nat.strong_induction_on with
  | _ n ih =>
    by_cases h : n < 10
    · have : natToDec n = [digitChar n] := by
        simp [natToDec]
        rw [toDigitsRev_eq]
        simp [h]
      rw [this]
      simp [decToNat, digitChar_toNat n h]
    · rw [natToDec_step n h, decToNat_append_digit,
        ih (n / 10) (Nat.div_lt_self (by omega) (by omega)),
        digitChar_toNat (n % 10) (by omega)]
      omega

theorem toDigitsRev_length_le (k n : Nat) (h : n < 10 ^ (k + 1)) :
    (toDigitsRev n).length ≤ k + 1 := by
  induction k generalizing n with
  | zero =>
      rw [toDigitsRev_eq]
      have : n < 10 := by simpa using h
      simp [this]
  | succ k ih =>
      rw [toDigitsRev_eq]
      split
      · simp
      · have : n / 10 < 10 ^ (k + 1) := by
          apply Nat.div_lt_of_lt_mul
          calc n < 10 ^ (k + 1 + 1) := h
            _ = 10 * 10 ^ (k + 1) := by ring
        simpa using ih (n / 10) this

theorem toDigitsRev_length_ge (k n : Nat) (h : 10 ^ k ≤ n) :
    k + 1 ≤ (toDigitsRev n).length := by
  induction k generalizing n with
  | zero =>
      have := toDigitsRev_ne_nil n
      cases hl : toDigitsRev n with
      | nil => exact absurd hl this
      | cons a l => simp
  | succ k ih =>
      rw [toDigitsRev_eq]
      have h10 : ¬ n < 10 := by
        have : 10 ≤ 10 ^ (k + 1) := by
          calc 10 = 10 ^ 1 := by norm_num
            _ ≤ 10 ^ (k + 1) := Nat.pow_le_pow_right (by omega) (by omega)
        omega
      rw [if_neg h10]
      have : 10 ^ k ≤ n / 10 := by
        apply Nat.le_div_iff_mul_le (by omega) |>.mpr
        calc 10 ^ k * 10 = 10 ^ (k + 1) := by ring
          _ ≤ n := h
      simpa using ih (n / 10) this

theorem natToDec_length (n : Nat) : (natToDec n).length = (toDigitsRev n).length := by
  simp [natToDec]

theorem pad8_length (i : Nat) (h : i < 10 ^ 8) : (pad8 i).length = 8 := by
  have hle : (natToDec i).length ≤ 8 := by
    rw [natToDec_length]
    exact toDigitsRev_length_le 7 i h
  simp [pad8]
  omega

theorem natToDec_length_ge_nine (ts : Nat) (h : 10 ^ 8 ≤ ts) :
    9 ≤ (natToDec ts).length := by
  rw [natToDec_length]
  exact toDigitsRev_length_ge 8 ts h

theorem natToDec_no_hyphen (n : Nat) : ∀ c ∈ natToDec n, c ≠ '-' := by
  intro c hc
  simp only [natToDec, List.mem_map, List.mem_reverse] at hc
  obtain ⟨d, hd, rfl⟩ := hc
  have hlt := toDigitsRev_lt_ten n d hd
  interval_cases d <;> decide

theorem pad8_no_hyphen (i : Nat) : ∀ c ∈ pad8 i, c ≠ '-' := by
  intro c hc
  simp only [pad8, List.mem_append, List.mem_replicate] at hc
  rcases hc with h | h
  · rw [h.2]; decide
  · exact natToDec_no_hyphen i c h

theorem natToDec_all_digits (n : Nat) :
    (natToDec n).all (fun c => 48 ≤ c.toNat ∧ c.toNat ≤ 57) = true := by
  rw [List.all_eq_true]
  intro c hc
  simp only [natToDec, List.mem_map, List.mem_reverse] at hc
  obtain ⟨d, hd, rfl⟩ := hc
  have hlt := toDigitsRev_lt_ten n d hd
  have := digitChar_toNat d hlt
  simp [this]
  omega

/-! ### Splitting on hyphens (embedding of `strings.Split(s, "-")`) -/

/-- Embedding of Go `strings.Split(s, "-")`: the (non-empty) list of
hyphen-separated fields, empty fields preserved. -/
def splitHy : List Char → List (List Char)
  | [] => [[]]
  | c :: cs =>
      match splitHy cs with
      | [] => [[]]
      | p :: ps => if c = '-' then [] :: p :: ps else (c :: p) :: ps

theorem splitHy_cons_of_eq (c : Char) (cs p : List Char) (ps : List (List Char))
    (h : splitHy cs = p :: ps) :
    splitHy (c :: cs) = if c = '-' then [] :: p :: ps else (c :: p) :: ps := by
  simp only [splitHy, h]

theorem splitHy_ne_nil (l : List Char) : splitHy l ≠ [] := by
  induction l with
  | nil => simp [splitHy]
  | cons c cs ih =>
      obtain ⟨p, ps, h⟩ : ∃ p ps, splitHy cs = p :: ps := by
        cases hh : splitHy cs with
        | nil => exact absurd hh ih
        | cons p ps => exact ⟨p, ps, rfl⟩
      rw [splitHy_cons_of_eq c cs p ps h]
      split <;> simp

theorem splitHy_exists_cons (l : List Char) : ∃ p ps, splitHy l = p :: ps := by
  cases h : splitHy l with
  | nil => exact absurd h (splitHy_ne_nil l)
  | cons p ps => exact ⟨p, ps, rfl⟩

theorem splitHy_no_hyphen (l : List Char) (h : ∀ c ∈ l, c ≠ '-') :
    splitHy l = [l] := by
  induction l with
  | nil => rfl
  | cons c cs ih =>
      have hc : c ≠ '-' := h c (by simp)
      have hcs : splitHy cs = [cs] := ih (fun x hx => h x (by simp [hx]))
      rw [splitHy_cons_of_eq c cs cs [] hcs, if_neg hc]

theorem splitHy_append_hyphen (xs ys : List Char) :
    splitHy (xs ++ '-' :: ys) = splitHy xs ++ splitHy ys := by
  induction xs with
  | nil =>
      obtain ⟨q, qs, hys⟩ := splitHy_exists_cons ys
      rw [List.nil_append, splitHy_cons_of_eq '-' ys q qs hys, if_pos rfl, hys]
      rfl
  | cons c cs ih =>
      obtain ⟨p, ps, hcs⟩ := splitHy_exists_cons cs
      obtain ⟨r, rs, hall⟩ := splitHy_exists_cons (cs ++ '-' :: ys)
      have hrw : r :: rs = (p :: ps) ++ splitHy ys := by rw [← hall, ih, hcs]
      rw [List.cons_append, splitHy_cons_of_eq c (cs ++ '-' :: ys) r rs hall,
        splitHy_cons_of_eq c cs p ps hcs, hrw]
      simp only [List.cons_append, List.cons.injEq] at hrw
      by_cases hc : c = '-' <;> simp [hc, hrw.1, hrw.2]

theorem splitHy_length (l : List Char) :
    (splitHy l).length = l.count '-' + 1 := by
  induction l with
  | nil => rfl
  | cons c cs ih =>
      obtain ⟨p, ps, hcs⟩ := splitHy_exists_cons cs
      rw [splitHy_cons_of_eq c cs p ps hcs]
      rw [hcs] at ih
      by_cases hc : c = '-'
      · subst hc
        simp only [if_pos rfl, List.length_cons]
        simp only [List.length_cons] at ih
        simp [List.count_cons, ih]
      · simp only [if_neg hc, List.length_cons]
        simp only [List.length_cons] at ih
        simp [List.count_cons, hc, ih]

/-! ### Configuration constants (from the `config` package, reproduced in
`src/README.md`; also §6 of the spec) -/

namespace config

/-- ReplicationFactor specifies the number of replicas for each block. -/
def ReplicationFactor : Nat := 3

/-- BlkSize in bytes (4 KB). -/
def BlkSize : Int := 4096

end config

/-! ### Shared record types (package `utils`) -/

/-- MetaData stores checksum, timestamp and length of a block
(`src/utils/utils.go`). -/
structure MetaData where
  Checksum : Nat
  Timestamp : Int
  Length : Int
deriving DecidableEq

/-- BlkData is used by the client to move block data
(`src/utils/utils.go`).  `Data` is the byte buffer (bytes as `Nat < 256`). -/
structure BlkData where
  BlkID : String
  Data : List Nat
  Checksum : Nat
  Length : Nat
deriving DecidableEq

/-- CalMVReply is the per-block map result (`src/utils/utils.go`); the Go
float64 fields are modelled as exact rationals. -/
structure CalMVReply where
  Cnt : Int
  Mean : ℚ
  MeanSQ : ℚ
deriving DecidableEq

/-! ### CRC-32 (IEEE) — embedding of `hash/crc32.ChecksumIEEE` in its
standard bitwise form (polynomial 0xEDB88320, init/final 0xFFFFFFFF) -/

/-- One shift-and-conditionally-xor round of CRC-32. -/
def crc32Round (c : Nat) : Nat :=
  if c % 2 = 1 then (c >>> 1) ^^^ 0xEDB88320 else c >>> 1

/-- Absorb one byte into the running CRC. -/
def crc32Byte (c b : Nat) : Nat := crc32Round^[8] (c ^^^ (b % 256))

/-- Embedding of `crc32.ChecksumIEEE`. -/
def ChecksumIEEE (data : List Nat) : Nat :=
  (data.foldl crc32Byte 0xFFFFFFFF) ^^^ 0xFFFFFFFF

/-! ### The namenode's mirror of the namespace on the host filesystem -/

/-- A namespace entry: a directory, or a regular file whose content is the
decoded JSON array of BlockIDs (the only file content the system writes). -/
inductive FsEntry
  | dir : FsEntry
  | file : List String → FsEntry
deriving DecidableEq

/-- The namespace mirror: paths (component lists relative to the DFS root)
mapped to entries.  The root `[]` itself always exists as a directory. -/
abbrev FileSystem := List (List String × FsEntry)

/-- Embedding of `os.Stat` relative to the DFS root. -/
def fsStat (fs : FileSystem) (p : List String) : Option FsEntry :=
  if p = [] then some .dir else alFind fs p

instance {ε α : Type} [DecidableEq ε] [DecidableEq α] : DecidableEq (Except ε α) :=
  fun a b =>
    match a, b with
    | .ok x, .ok y =>
        if h : x = y then isTrue (by rw [h]) else isFalse (fun hh => by cases hh; exact h rfl)
    | .error x, .error y =>
        if h : x = y then isTrue (by rw [h]) else isFalse (fun hh => by cases hh; exact h rfl)
    | .ok _, .error _ => isFalse (fun hh => by cases hh)
    | .error _, .ok _ => isFalse (fun hh => by cases hh)

/-- Filesystem error taxonomy relevant to the namespace operations. -/
inductive FsErr
  | notFound
  | alreadyExists
  | notDir
deriving DecidableEq

/-- Embedding of `os.Mkdir`: create one level; the parent must exist and be a
directory, the path itself must not exist. -/
def osMkdir (fs : FileSystem) (p : List String) : Except FsErr FileSystem :=
  match fsStat fs p with
  | some _ => .error .alreadyExists
  | none =>
      match fsStat fs p.dropLast with
      | some .dir => .ok (alInsert fs p .dir)
      | some (.file _) => .error .notDir
      | none => .error .notFound

/-- Recursion kernel of `osMkdirAll`, structural in a fuel bound (the fuel is
always the path length, so the fuel-exhausted branch is unreachable). -/
def osMkdirAllF : Nat → FileSystem → List String → Except FsErr FileSystem
  | _, fs, [] => .ok fs
  | 0, fs, _ :: _ => .ok fs
  | fuel + 1, fs, c :: cs =>
      match fsStat fs (c :: cs) with
      | some .dir => .ok fs
      | some (.file _) => .error .notDir
      | none =>
          (osMkdirAllF fuel fs (c :: cs).dropLast).map (fun fs2 => alInsert fs2 (c :: cs) .dir)

/-- Embedding of `os.MkdirAll`: create the directory and all missing parents;
succeeds when the directory already exists, fails when the path or one of its
ancestors exists as a regular file. -/
def osMkdirAll (fs : FileSystem) (p : List String) : Except FsErr FileSystem :=
  osMkdirAllF p.length fs p

/-- The recursive unfolding of `osMkdirAll`. -/
theorem osMkdirAll_cons (fs : FileSystem) (c : String) (cs : List String) :
    osMkdirAll fs (c :: cs) =
      match fsStat fs (c :: cs) with
      | some .dir => .ok fs
      | some (.file _) => .error .notDir
      | none =>
          (osMkdirAll fs (c :: cs).dropLast).map (fun fs2 => alInsert fs2 (c :: cs) .dir) := by
  have hlen : (c :: cs).dropLast.length = cs.length := by
    simp [List.length_dropLast]
  show osMkdirAllF (cs.length + 1) fs (c :: cs) = _
  simp only [osMkdirAllF, osMkdirAll, hlen]

/-! ### NameNode state and RPC surface
(`src/namenode/namenode.go`, `src/unnamed/part_000`, `src/unnamed/part_002`) -/

/-- NameNode stores the namespace tree (mirrored on the host filesystem) and
the volatile block → storage-id map.  The `DFSRootPath`, timing flags and the
mutex of the source are not part of the logical state. -/
structure NameNode where
  NamespaceID : Int
  /-- maps block id to storage ids -/
  BlkToDatanodes : List (String × List String)
  /-- maps storage id to address (ip:port) -/
  SID2Addr : List (String × String)
  /-- maps address to storage id -/
  Addr2SID : List (String × String)
  /-- the namespace mirror under the DFS root -/
  fs : FileSystem
deriving DecidableEq

/-- The state of a freshly started namenode (`NewNameNode` + `initNID`). -/
def initialNameNode : NameNode :=
  { NamespaceID := 1, BlkToDatanodes := [], SID2Addr := [], Addr2SID := [], fs := [] }

/-- HandshakeArgs (`src/unnamed/part_002`). -/
structure HandshakeArgs where
  NamespaceID : Int
  Addr : String
  HostName : String

/-- Embedding of `NameNode.Handshake` (`src/unnamed/part_002` lines 42-61):
sentinel -1 and matching ids are accepted with the namenode's id, any other id
is refused; the state is returned unchanged. -/
def Handshake (n : NameNode) (args : HandshakeArgs) : NameNode × Except String Int :=
  if args.NamespaceID = -1 then (n, .ok n.NamespaceID)
  else if args.NamespaceID ≠ n.NamespaceID then (n, .error "NID mismatch")
  else (n, .ok n.NamespaceID)

/-- Embedding of `generateSID` (`src/unnamed/part_002`): hostname-millis-rand;
the wall clock and random draw are passed in as oracle values. -/
def generateSID (hostname : String) (ts rnd : Nat) : String :=
  hostname ++ "-" ++ (⟨natToDec ts⟩ : String) ++ "-" ++ (⟨natToDec rnd⟩ : String)

/-- RegisterArgs (`src/unnamed/part_002`). -/
structure RegisterArgs where
  HostName : String
  Addr : String
  StorageID : String

/-- Embedding of `NameNode.Register` (`src/unnamed/part_002` lines 81-93). -/
def Register (n : NameNode) (args : RegisterArgs) (ts rnd : Nat) : NameNode × String :=
  let sid := if args.StorageID = "" then generateSID args.HostName ts rnd else args.StorageID
  ({ n with SID2Addr := alInsert n.SID2Addr sid args.Addr,
            Addr2SID := alInsert n.Addr2SID args.Addr sid }, sid)

/-- Embedding of `NameNode.ReportBlock` (`src/unnamed/part_002` lines 168-179):
for every reported block id, append the reporter's storage id (the zero value
`""` when the address never registered) to the block's list.  `ids` is the key
set of `args.IDToMetaData` in iteration order. -/
def reportOne (addr : String) (st : NameNode) (id : String) : NameNode :=
  let sid := alFindD st.Addr2SID addr ""
  let old := alFindD st.BlkToDatanodes id []
  { st with BlkToDatanodes := alInsert st.BlkToDatanodes id (old ++ [sid]) }

/-- Embedding of `NameNode.ReportBlock` proper: fold `reportOne` over the
reported ids. -/
def ReportBlock (n : NameNode) (addr : String) (ids : List String) : NameNode × Bool :=
  (ids.foldl (reportOne addr) n, true)

/-- Embedding of `NameNode.format` (`src/namenode/namenode.go` lines 153-165):
wipe the namespace mirror, clear the block index, bump the namespace id.  The
best-effort "reformat window" flag is timing behaviour and is not modelled. -/
def formatNameNode (n : NameNode) : NameNode :=
  { n with fs := [], BlkToDatanodes := [], NamespaceID := n.NamespaceID + 1 }

/-- CommandReply (`src/unnamed/part_000`), restricted to the fields the
embedded commands populate. -/
structure CommandReply where
  Result : String
  BlkList : List String
  BlkToDataNodes : List (String × List String)
deriving DecidableEq

/-- List-level body of `generateSegName` (`src/unnamed/part_000` lines 239-244):
`filename-index(8 digits)-timestamp-random`. -/
def genSegNameL (filename : List Char) (i ts rnd : Nat) : List Char :=
  filename ++ '-' :: (pad8 i ++ '-' :: (natToDec ts ++ '-' :: natToDec rnd))

/-- Embedding of `generateSegName`, wall clock and random draw as oracles. -/
def generateSegName (filename : String) (i ts rnd : Nat) : String :=
  ⟨genSegNameL filename.data i ts rnd⟩

/-- The replica-selection loop of `runCopyFromLocal`: walk the address list,
stopping as soon as `ReplicationFactor` addresses are collected. -/
def selNodesLoop : List String → List String → List String
  | [], acc => acc
  | a :: rest, acc =>
      if config.ReplicationFactor ≤ acc.length then acc
      else selNodesLoop rest (acc ++ [a])

/-- Node selection for one block: first `ReplicationFactor` addresses in the
map's iteration order. -/
def selectNodes (addrs : List String) : List String := selNodesLoop addrs []

/-- Embedding of `NameNode.runCopyFromLocal` (`src/unnamed/part_000` lines
158-237).  `dPath` is the destination directory, `fileName`/`fileSize` come
from the client's stat of the local file; `ts`/`rnd` are the per-block wall
clock and random oracles.  The reply's `Result` field is never set by the
source. -/
def runCopyFromLocal (n : NameNode) (dPath : List String) (fileName : String)
    (fileSize : Int) (ts rnd : Nat → Nat) : NameNode × Except String CommandReply :=
  match fsStat n.fs dPath with
  | none => (n, .error "No such file or directory")
  | some (.file _) => (n, .error "The destination of copyFromLocal should be a directory")
  | some .dir =>
      let distFilePath := dPath ++ [fileName]
      match fsStat n.fs distFilePath with
      | some (.file _) => (n, .error "File exists")
      | _ =>
          let numBlks : Nat := (Int.tdiv (fileSize - 1) config.BlkSize + 1).toNat
          let blkList := (List.range numBlks).map
            (fun i => generateSegName fileName i (ts i) (rnd i))
          let nodeList := selectNodes (n.Addr2SID.map Prod.fst)
          let plan := blkList.map (fun b => (b, nodeList))
          let fs2 :=
            match fsStat n.fs distFilePath with
            | some .dir => n.fs
            | _ => alInsert n.fs distFilePath (.file blkList)
          ({ n with fs := fs2 },
           .ok { Result := "", BlkList := blkList, BlkToDataNodes := plan })

/-- Embedding of `NameNode.readDfsFile` (`src/unnamed/part_000`): the decoded
block list of the file entry, or the empty list when the path is missing or
not a regular file (open/decode errors are logged and yield an empty slice). -/
def readDfsFile (n : NameNode) (dfsPath : List String) : List String :=
  match fsStat n.fs dfsPath with
  | some (.file l) => l
  | _ => []

/-- Embedding of `NameNode.runCopyToLocal` (`src/unnamed/part_000` lines
246-272): resolve the block list, then join each block's storage ids against
`SID2Addr` (absent ids yield the zero value `""`). -/
def runCopyToLocal (n : NameNode) (dPath : List String) : NameNode × Except String CommandReply :=
  let blkList := readDfsFile n dPath
  let plan := blkList.map
    (fun b => (b, (alFindD n.BlkToDatanodes b []).map (fun sid => alFindD n.SID2Addr sid "")))
  (n, .ok { Result := "", BlkList := blkList, BlkToDataNodes := plan })

/-- Embedding of `NameNode.runMkdir` (`src/unnamed/part_000` lines 303-309). -/
def runMkdir (n : NameNode) (dPath : List String) : NameNode × Except FsErr String :=
  match osMkdir n.fs dPath with
  | .ok fs2 => ({ n with fs := fs2 }, .ok "running mkdir")
  | .error e => (n, .error e)

/-- Embedding of `NameNode.runMkdirP` (`src/unnamed/part_000` lines 311-317). -/
def runMkdirP (n : NameNode) (dPath : List String) : NameNode × Except FsErr String :=
  match osMkdirAll n.fs dPath with
  | .ok fs2 => ({ n with fs := fs2 }, .ok "running mkdirP")
  | .error e => (n, .error e)

/-- Embedding of the combine phase of `NameNode.runCalMeanVar`
(`src/unnamed/part_000` lines 83-134).  `results` holds the successful map
result of each block, one per block of the file; the goroutines' accumulation
into `totCnt`/`totMean`/`totSQ` is serialized into a fold in block order
(the sums are order-independent in the exact-arithmetic model). -/
def calStep (a : Int × ℚ × ℚ) (r : CalMVReply) : Int × ℚ × ℚ :=
  (a.1 + r.Cnt, a.2.1 + r.Mean * (r.Cnt : ℚ), a.2.2 + r.MeanSQ * (r.Cnt : ℚ))

/-- The combine phase proper: accumulate with `calStep`, normalize by the
total count, and format the reply string. -/
def runCalMeanVar (results : List CalMVReply) : String × ℚ × ℚ :=
  let acc := results.foldl calStep ((0 : Int), (0 : ℚ), (0 : ℚ))
  let totMean := acc.2.1 / (acc.1 : ℚ)
  let totSQ := acc.2.2 / (acc.1 : ℚ)
  let variance := totSQ - totMean * totMean
  ("mean: " ++ toString totMean ++ ", variance: " ++ toString variance ++ "\n",
   totMean, variance)

/-! ### DataNode state and block upload (`src/unnamed/part_005`) -/

/-- DataNode state: the in-memory id → metadata map and the payload store
(`data/actdata`).  Paths and networking fields are not part of the logical
state. -/
structure DataNode where
  IDToMetaData : List (String × MetaData)
  actData : List (String × List Nat)
deriving DecidableEq

/-- Embedding of `getTimestamp` (`src/unnamed/part_005` lines 141-145):
the third hyphen-separated field of the BlockID.  The Go code indexes
`strings.Split(blkID, "-")[2]` unconditionally; an out-of-range index is a
runtime panic, modelled by `none`. -/
def getTimestamp (blkID : String) : Option (List Char) :=
  (splitHy blkID.data).get? 2

/-- Embedding of `strconv.ParseInt(s, 10, 64)` on the inputs this system
produces: the value of a non-empty all-digit string, and the zero value
(together with a logged error in the source) otherwise.  Sign handling and the
64-bit range check are elided: the inputs are short digit strings. -/
def goParseInt (l : List Char) : Int :=
  if l ≠ [] ∧ (l.all fun c => decide (48 ≤ c.toNat ∧ c.toNat ≤ 57)) = true
  then (decToNat l : Int) else 0

/-- Embedding of `DataNode.saveMeta` (`src/unnamed/part_005` lines 111-139):
parse the timestamp string and store the metadata record in the in-memory map
(the on-disk JSON copy mirrors the map and is not modelled separately). -/
def saveMeta (d : DataNode) (blkID : String) (timestamp : List Char)
    (checksum : Nat) (length : Nat) : DataNode :=
  let meta : MetaData :=
    { Checksum := checksum, Timestamp := goParseInt timestamp, Length := (length : Int) }
  { d with IDToMetaData := alInsert d.IDToMetaData blkID meta }

/-- Embedding of `DataNode.saveData` (`src/unnamed/part_005`). -/
def saveData (d : DataNode) (blkID : String) (data : List Nat) : DataNode :=
  { d with actData := alInsert d.actData blkID data }

/-- Embedding of `DataNode.SendBlk` (`src/unnamed/part_005` lines 85-94):
extract the timestamp from the BlockID (panic — `none` — when the id has
fewer than two hyphens), then store metadata and payload. -/
def SendBlk (d : DataNode) (args : BlkData) : Option (DataNode × Bool) :=
  match getTimestamp args.BlkID with
  | none => none
  | some ts =>
      some (saveData (saveMeta d args.BlkID ts args.Checksum args.Length)
              args.BlkID args.Data, true)

/-! ### Client read path (`src/cmd/client/main.go`) -/

/-- Embedding of `readRemoteBlk` (`src/cmd/client/main.go` lines 246-272):
request the block from one datanode (the network is an oracle from segment
name and address to the returned `BlkData`), recompute the CRC over the
returned payload and compare with the returned checksum; `none` on mismatch. -/
def readRemoteBlk (net : String → String → BlkData) (seg addr : String) :
    Option (List Nat × Nat) :=
  let reply := net seg addr
  if ChecksumIEEE reply.Data = reply.Checksum then some (reply.Data, reply.Length)
  else none

/-- Embedding of `writeLocalFile` (`src/cmd/client/main.go`): append the first
`length` bytes of the accepted payload to the local file. -/
def writeLocalFile (file : List Nat) (data : List Nat) (length : Nat) : List Nat :=
  file ++ data.take length

/-- Embedding of the block-fetch loop of the client's `runCopyToLocal`
(`src/cmd/client/main.go` lines 227-244): for each block in order, walk the
replica addresses, skip empty ones, and append the payload of EVERY replica
whose checksum verifies (the source has no break after a successful write).
The result is the byte content of the local file. -/
def clientRunCopyToLocal (blkList : List String) (plan : List (String × List String))
    (net : String → String → BlkData) : List Nat :=
  blkList.foldl (fun file seg =>
    (alFindD plan seg []).foldl (fun f addr =>
      if addr = "" then f
      else
        match readRemoteBlk net seg addr with
        | some (data, length) => writeLocalFile f data length
        | none => f) file) []

/-! ### Sequences of membership/report calls, for reachability claims -/

/-- One namenode call in a Register/ReportBlock run; the `ts`/`rnd` arguments
of `register` resolve `generateSID`'s clock and randomness. -/
inductive NNOp
  | register (hostName addr storageID : String) (ts rnd : Nat)
  | report (addr : String) (ids : List String)

/-- Apply one call to the namenode state. -/
def applyOp (n : NameNode) (o : NNOp) : NameNode :=
  match o with
  | .register h a sid ts rnd => (Register n ⟨h, a, sid⟩ ts rnd).1
  | .report a ids => (ReportBlock n a ids).1

/-- Run a sequence of calls. -/
def runOps (n : NameNode) (ops : List NNOp) : NameNode := ops.foldl applyOp n

/-- A run is well-formed when every `register` carries a non-empty address and
every `report` comes from an address that is registered at that point. -/
def goodRun (n : NameNode) : List NNOp → Bool
  | [] => true
  | o :: rest =>
      (match o with
       | .register _ a _ _ _ => a ≠ ""
       | .report a _ => (alFind n.Addr2SID a).isSome) && goodRun (applyOp n o) rest

/-- Every storage id listed in the block index resolves through `SID2Addr` to
a non-empty address (spec §8, invariant 2). -/
def BlkAddrsOK (n : NameNode) : Prop :=
  ∀ id l, alFind n.BlkToDatanodes id = some l →
    ∀ sid ∈ l, ∃ a, alFind n.SID2Addr sid = some a ∧ a ≠ ""

/-- Auxiliary invariant: every registered address points to a storage id that
resolves to a non-empty address. -/
def Addr2SIDOK (n : NameNode) : Prop :=
  ∀ ad sid, alFind n.Addr2SID ad = some sid →
    ∃ a, alFind n.SID2Addr sid = some a ∧ a ≠ ""

/-! ### Supporting lemmas: replica selection -/

theorem selNodesLoop_eq (addrs : List String) :
    ∀ acc, selNodesLoop addrs acc =
      acc ++ addrs.take (config.ReplicationFactor - acc.length) := by
  induction addrs with
  | nil => intro acc; simp [selNodesLoop]
  | cons a rest ih =>
      intro acc
      simp only [selNodesLoop]
      by_cases h : config.ReplicationFactor ≤ acc.length
      · rw [if_pos h]
        have : config.ReplicationFactor - acc.length = 0 := by omega
        simp [this]
      · rw [if_neg h, ih]
        have h1 : config.ReplicationFactor - acc.length =
            (config.ReplicationFactor - (acc.length + 1)) + 1 := by
          simp [config.ReplicationFactor] at h ⊢
          omega
        simp [h1, List.take_succ_cons]

theorem selectNodes_eq_take (addrs : List String) :
    selectNodes addrs = addrs.take config.ReplicationFactor := by
  simpa using selNodesLoop_eq addrs []

/-- Claim C2: a Handshake with the sentinel NamespaceID -1 or with the
coordinator's current NamespaceID succeeds and replies with the coordinator's
NamespaceID; any other NamespaceID is refused with the epoch-mismatch error
"NID mismatch"; the coordinator state is unchanged in every case; and after a
Format every pre-format epoch (any value other than the sentinel) is
refused. -/
theorem handshake_epoch_rules (n : NameNode) (a : HandshakeArgs) :
    ((a.NamespaceID = -1 ∨ a.NamespaceID = n.NamespaceID) →
      Handshake n a = (n, .ok n.NamespaceID)) ∧
    (a.NamespaceID ≠ -1 → a.NamespaceID ≠ n.NamespaceID →
      Handshake n a = (n, .error "NID mismatch")) ∧
    (Handshake n a).1 = n ∧
    (n.NamespaceID ≠ -1 →
      Handshake (formatNameNode n) { a with NamespaceID := n.NamespaceID } =
        (formatNameNode n, .error "NID mismatch")) := by
  refine ⟨?_, ?_, ?_, ?_⟩
  · rintro (h | h) <;> simp [Handshake, h]
  · intro h1 h2
    simp [Handshake, h1, h2]
  · by_cases h1 : a.NamespaceID = -1
    · simp [Handshake, h1]
    · by_cases h2 : a.NamespaceID = n.NamespaceID <;> simp [Handshake, h1, h2]
  · intro h
    have h1 : n.NamespaceID ≠ n.NamespaceID + 1 := by omega
    simp [Handshake, formatNameNode, h, h1]

theorem handshake_epoch_rules_witness :
    ((7 : Int) ≠ -1) ∧ ((7 : Int) ≠ (1 : Int)) ∧
    Handshake initialNameNode ⟨7, "addr", "host"⟩ =
      (initialNameNode, .error "NID mismatch") :=
  ⟨by decide, by decide,
   (handshake_epoch_rules initialNameNode ⟨7, "addr", "host"⟩).2.1 (by decide) (by decide)⟩

/-- Claim C5: the write plan never touches the volatile block index — for
every request, successful or failing, `runCopyFromLocal` leaves
`BlkToDatanodes` as it was; the same holds for Handshake, Register,
CopyToLocal, Mkdir and MkdirP, while Format only clears the index, so entries
are added to the index by ReportBlock alone. -/
theorem copyFromLocal_blockindex_frame (n : NameNode) (dPath dp2 : List String)
    (fileName : String) (fileSize : Int) (ts rnd : Nat → Nat)
    (a : HandshakeArgs) (ra : RegisterArgs) (rts rrnd : Nat) :
    (runCopyFromLocal n dPath fileName fileSize ts rnd).1.BlkToDatanodes = n.BlkToDatanodes ∧
    (Handshake n a).1.BlkToDatanodes = n.BlkToDatanodes ∧
    (Register n ra rts rrnd).1.BlkToDatanodes = n.BlkToDatanodes ∧
    (runCopyToLocal n dp2).1.BlkToDatanodes = n.BlkToDatanodes ∧
    (runMkdir n dp2).1.BlkToDatanodes = n.BlkToDatanodes ∧
    (runMkdirP n dp2).1.BlkToDatanodes = n.BlkToDatanodes ∧
    (formatNameNode n).BlkToDatanodes = [] := by
  refine ⟨?_, ?_, ?_, rfl, ?_, ?_, rfl⟩
  · unfold runCopyFromLocal
    split
    · rfl
    · rfl
    · dsimp only
      split
      · rfl
      · rfl
  · unfold Handshake
    split
    · rfl
    · split <;> rfl
  · rfl
  · unfold runMkdir
    split <;> rfl
  · unfold runMkdirP
    split <;> rfl

/-! ### Supporting lemmas: the ReportBlock fold -/

theorem reportOne_find_self (addr : String) (st : NameNode) (id : String) :
    alFind (reportOne addr st id).BlkToDatanodes id =
      some (alFindD st.BlkToDatanodes id [] ++ [alFindD st.Addr2SID addr ""]) := by
  simp [reportOne, alFind_alInsert_self]

theorem reportOne_find_ne (addr : String) (st : NameNode) (id id' : String)
    (h : id' ≠ id) :
    alFind (reportOne addr st id).BlkToDatanodes id' = alFind st.BlkToDatanodes id' := by
  simp [reportOne, alFind_alInsert_ne _ _ _ _ h]

theorem reportOne_addr2SID (addr : String) (st : NameNode) (id : String) :
    (reportOne addr st id).Addr2SID = st.Addr2SID := rfl

theorem reportFold_addr2SID (addr : String) :
    ∀ (ids : List String) (st : NameNode),
      (ids.foldl (reportOne addr) st).Addr2SID = st.Addr2SID := by
  intro ids
  induction ids with
  | nil => intro st; rfl
  | cons hd tl ih => intro st; simpa using ih (reportOne addr st hd)

theorem reportFold_sid2Addr (addr : String) :
    ∀ (ids : List String) (st : NameNode),
      (ids.foldl (reportOne addr) st).SID2Addr = st.SID2Addr := by
  intro ids
  induction ids with
  | nil => intro st; rfl
  | cons hd tl ih => intro st; simpa using ih (reportOne addr st hd)

theorem reportFold_find_not_mem (addr : String) :
    ∀ (ids : List String) (st : NameNode) (id : String), id ∉ ids →
      alFind ((ids.foldl (reportOne addr) st).BlkToDatanodes) id =
        alFind st.BlkToDatanodes id := by
  intro ids
  induction ids with
  | nil => intro st id _; rfl
  | cons hd tl ih =>
      intro st id h
      have h1 : id ≠ hd := fun hh => h (by simp [hh])
      have h2 : id ∉ tl := fun hh => h (by simp [hh])
      simpa [ih (reportOne addr st hd) id h2] using reportOne_find_ne addr st hd id h1

theorem reportFold_find_mem (addr : String) :
    ∀ (ids : List String) (st : NameNode) (id : String), ids.Nodup → id ∈ ids →
      alFind ((ids.foldl (reportOne addr) st).BlkToDatanodes) id =
        some (alFindD st.BlkToDatanodes id [] ++ [alFindD st.Addr2SID addr ""]) := by
  intro ids
  induction ids with
  | nil => intro st id _ h; simp at h
  | cons hd tl ih =>
      intro st id hnd hmem
      have hnd1 : hd ∉ tl := (List.nodup_cons.mp hnd).1
      have hnd2 : tl.Nodup := (List.nodup_cons.mp hnd).2
      rcases List.mem_cons.mp hmem with rfl | htl
      · rw [List.foldl_cons, reportFold_find_not_mem addr tl (reportOne addr st id) id hnd1]
        exact reportOne_find_self addr st id
      · have hne : id ≠ hd := fun hh => hnd1 (hh ▸ htl)
        rw [List.foldl_cons, ih (reportOne addr st hd) id hnd2 htl]
        rw [reportOne_addr2SID]
        have : alFindD (reportOne addr st hd).BlkToDatanodes id [] =
            alFindD st.BlkToDatanodes id [] := by
          simp [alFindD, reportOne_find_ne addr st hd id hne]
        rw [this]

/-- Claim C6: ReportBlock appends the reporter's storage id once to each
reported block's index entry (starting from the empty list when the entry was
absent), leaves every other entry untouched, and is therefore not idempotent —
repeating the identical report appends the storage id a second time, doubling
the length of an initially absent entry. -/
theorem reportBlock_appends (n : NameNode) (addr : String) (ids : List String)
    (hnd : ids.Nodup) :
    (∀ id ∈ ids,
      alFind (ReportBlock n addr ids).1.BlkToDatanodes id =
        some (alFindD n.BlkToDatanodes id [] ++ [alFindD n.Addr2SID addr ""])) ∧
    (∀ id, id ∉ ids →
      alFind (ReportBlock n addr ids).1.BlkToDatanodes id = alFind n.BlkToDatanodes id) ∧
    (∀ id ∈ ids,
      alFind (ReportBlock (ReportBlock n addr ids).1 addr ids).1.BlkToDatanodes id =
        some ((alFindD n.BlkToDatanodes id [] ++ [alFindD n.Addr2SID addr ""]) ++
          [alFindD n.Addr2SID addr ""])) ∧
    (∀ id ∈ ids, alFind n.BlkToDatanodes id = none →
      (alFindD (ReportBlock (ReportBlock n addr ids).1 addr ids).1.BlkToDatanodes id []).length =
        2 * (alFindD (ReportBlock n addr ids).1.BlkToDatanodes id []).length) := by
  have hmem : ∀ id ∈ ids,
      alFind (ReportBlock n addr ids).1.BlkToDatanodes id =
        some (alFindD n.BlkToDatanodes id [] ++ [alFindD n.Addr2SID addr ""]) :=
    fun id h => reportFold_find_mem addr ids n id hnd h
  have htwice : ∀ id ∈ ids,
      alFind (ReportBlock (ReportBlock n addr ids).1 addr ids).1.BlkToDatanodes id =
        some ((alFindD n.BlkToDatanodes id [] ++ [alFindD n.Addr2SID addr ""]) ++
          [alFindD n.Addr2SID addr ""]) := by
    intro id h
    have h2 := reportFold_find_mem addr ids (ReportBlock n addr ids).1 id hnd h
    simp only [ReportBlock] at h2 ⊢
    rw [h2, reportFold_addr2SID]
    have : alFindD (ids.foldl (reportOne addr) n).BlkToDatanodes id [] =
        alFindD n.BlkToDatanodes id [] ++ [alFindD n.Addr2SID addr ""] := by
      simp [alFindD, reportFold_find_mem addr ids n id hnd h]
    rw [this]
  refine ⟨hmem, fun id h => reportFold_find_not_mem addr ids n id h, htwice, ?_⟩
  intro id h habs
  have h1 := hmem id h
  have h2 := htwice id h
  simp [alFindD, h1, h2, habs]

theorem reportBlock_appends_witness :
    (["b1", "b2"] : List String).Nodup ∧
    alFind (ReportBlock
        { NamespaceID := 1, BlkToDatanodes := [], SID2Addr := [("s1", "a1")],
          Addr2SID := [("a1", "s1")], fs := [] } "a1" ["b1", "b2"]).1.BlkToDatanodes "b1" =
      some ["s1"] := by
  refine ⟨by decide, ?_⟩
  rw [(reportBlock_appends
    { NamespaceID := 1, BlkToDatanodes := [], SID2Addr := [("s1", "a1")],
      Addr2SID := [("a1", "s1")], fs := [] } "a1" ["b1", "b2"] (by decide)).1 "b1" (by decide)]
  rfl

/-- Claim C3: every block of a CopyFromLocal plan gets
min(ReplicationFactor, number of registered addresses) pairwise-distinct
replica addresses; with fewer than ReplicationFactor registered, the plan
lists all registered addresses.  The `Nodup` hypothesis is the Go map
invariant that `Addr2SID`'s keys are distinct. -/
theorem copyFromLocal_plan_replicas (n : NameNode) (dPath : List String)
    (fileName : String) (fileSize : Int) (ts rnd : Nat → Nat)
    (hnd : (n.Addr2SID.map Prod.fst).Nodup) :
    ∀ reply, (runCopyFromLocal n dPath fileName fileSize ts rnd).2 = .ok reply →
      ∀ pr ∈ reply.BlkToDataNodes,
        pr.2.length = min config.ReplicationFactor n.Addr2SID.length ∧
        pr.2.Nodup ∧
        (config.ReplicationFactor ≤ n.Addr2SID.length →
          pr.2.length = config.ReplicationFactor) ∧
        (n.Addr2SID.length < config.ReplicationFactor →
          pr.2 = n.Addr2SID.map Prod.fst) := by
  intro reply hreply pr hpr
  unfold runCopyFromLocal at hreply
  split at hreply
  · exact absurd hreply (by simp)
  · exact absurd hreply (by simp)
  · dsimp only at hreply
    split at hreply
    · exact absurd hreply (by simp)
    · simp only [Except.ok.injEq] at hreply
      subst hreply
      simp only [List.mem_map] at hpr
      obtain ⟨b, _, hpr2⟩ := hpr
      have hsnd : pr.2 = selectNodes (n.Addr2SID.map Prod.fst) := by
        rw [← hpr2]
      rw [hsnd, selectNodes_eq_take]
      refine ⟨?_, ?_, ?_, ?_⟩
      · simp [List.length_take, List.length_map]
      · exact (List.take_sublist _ _).nodup hnd
      · intro hge
        simp [List.length_take, List.length_map]
        omega
      · intro hlt
        apply List.take_of_length_le
        simp [List.length_map]
        omega

/-- A two-data-server namenode state used to evaluate concrete plans. -/
def twoServerNN : NameNode :=
  { NamespaceID := 1, BlkToDatanodes := [], SID2Addr := [("s1", "a1"), ("s2", "a2")],
    Addr2SID := [("a1", "s1"), ("a2", "s2")], fs := [] }

/-- The reply `runCopyFromLocal twoServerNN [] "f" 10 0 0` evaluates to. -/
def twoServerReply : CommandReply :=
  { Result := "", BlkList := ["f-00000000-0-0"],
    BlkToDataNodes := [("f-00000000-0-0", ["a1", "a2"])] }

theorem copyFromLocal_plan_replicas_witness :
    (twoServerNN.Addr2SID.map Prod.fst).Nodup ∧
    ∀ pr ∈ twoServerReply.BlkToDataNodes,
      pr.2.length = min config.ReplicationFactor twoServerNN.Addr2SID.length ∧
      pr.2.Nodup ∧
      (config.ReplicationFactor ≤ twoServerNN.Addr2SID.length →
        pr.2.length = config.ReplicationFactor) ∧
      (twoServerNN.Addr2SID.length < config.ReplicationFactor →
        pr.2 = twoServerNN.Addr2SID.map Prod.fst) :=
  ⟨by decide,
   copyFromLocal_plan_replicas twoServerNN [] "f" 10 (fun _ => 0) (fun _ => 0)
     (by decide) twoServerReply (by decide)⟩

/-- Modelled from the spec (§4.1 CopyFromLocal): "Compute numBlocks =
ceil(fileSize / BLOCK_SIZE)". -/
def specNumBlocks (fileSize : Int) : Int := ⌈(fileSize : ℚ) / (config.BlkSize : ℚ)⌉

/-- Claim C4, counterexample: for a zero-length file the code mints one block
(`(0-1)/4096 + 1 = 1` in Go's truncated division) while ceil(0/4096) = 0, so
the minted count differs from `ceil(s / BLOCK_SIZE)` at s = 0. -/
theorem claim4_counterexample :
    (runCopyFromLocal initialNameNode [] "f" 0 (fun _ => 0) (fun _ => 0)).2 =
      .ok { Result := "", BlkList := ["f-00000000-0-0"],
            BlkToDataNodes := [("f-00000000-0-0", [])] } ∧
    (["f-00000000-0-0"] : List String).length = 1 ∧
    specNumBlocks 0 = 0 ∧ (1 : Int) ≠ 0 := by
  refine ⟨by decide, rfl, ?_, by decide⟩
  simp [specNumBlocks]

theorem tdiv_ceil (s : Int) (hs : 1 ≤ s) :
    (s - 1).tdiv config.BlkSize + 1 = specNumBlocks s := by
  have h0 : (0 : Int) ≤ s - 1 := by omega
  have ht : (s - 1).tdiv (4096 : Int) = (s - 1) / 4096 :=
    Int.tdiv_eq_ediv h0 (by norm_num)
  have heq : (4096 : Int) * ((s - 1) / 4096) + (s - 1) % 4096 = s - 1 :=
    Int.ediv_add_emod (s - 1) 4096
  have hr0 : (0 : Int) ≤ (s - 1) % 4096 := Int.emod_nonneg _ (by norm_num)
  have hr1 : (s - 1) % 4096 < 4096 := Int.emod_lt_of_pos _ (by norm_num)
  show (s - 1).tdiv (4096 : Int) + 1 = ⌈(s : ℚ) / ((4096 : Int) : ℚ)⌉
  rw [ht, eq_comm, Int.ceil_eq_iff]
  push_cast
  constructor
  · rw [lt_div_iff₀ (by norm_num)]
    have : (4096 : Int) * ((s - 1) / 4096) < s := by omega
    calc ((((s - 1) / 4096 : Int) : ℚ) + 1 - 1) * 4096
        = (((s - 1) / 4096 : Int) : ℚ) * 4096 := by ring
      _ < s := by exact_mod_cast by omega
  · rw [div_le_iff₀ (by norm_num)]
    have : s ≤ 4096 * ((s - 1) / 4096) + 4096 := by omega
    calc (s : ℚ) ≤ (((s - 1) / 4096 : Int) : ℚ) * 4096 + 4096 := by exact_mod_cast by omega
      _ = ((((s - 1) / 4096 : Int) : ℚ) + 1) * 4096 := by ring

/-- Claim C4 (amended — the claim holds for every file size ≥ 1; at size 0 the
code mints one block, see the counterexample): for a CopyFromLocal request
whose destination directory exists and whose file entry does not, the number
of minted BlockIDs returned in BlkList equals ceil(fileSize / 4096), and
exactly that list is persisted into the new file entry. -/
theorem copyFromLocal_numBlocks (n : NameNode) (dPath : List String) (fileName : String)
    (fileSize : Int) (ts rnd : Nat → Nat)
    (h1 : fsStat n.fs dPath = some .dir)
    (h2 : fsStat n.fs (dPath ++ [fileName]) = none)
    (hs : 1 ≤ fileSize) :
    ∃ reply, (runCopyFromLocal n dPath fileName fileSize ts rnd).2 = .ok reply ∧
      (reply.BlkList.length : Int) = specNumBlocks fileSize ∧
      fsStat (runCopyFromLocal n dPath fileName fileSize ts rnd).1.fs
        (dPath ++ [fileName]) = some (.file reply.BlkList) := by
  unfold runCopyFromLocal
  rw [h1]
  dsimp only
  rw [h2]
  dsimp only
  refine ⟨_, rfl, ?_, ?_⟩
  · have hpos : (0 : Int) ≤ (fileSize - 1).tdiv config.BlkSize + 1 := by
      have := Int.tdiv_eq_ediv (a := fileSize - 1) (b := 4096) (by omega) (by norm_num)
      show (0 : Int) ≤ (fileSize - 1).tdiv 4096 + 1
      rw [this]
      have := Int.ediv_nonneg (a := fileSize - 1) (b := 4096) (by omega) (by norm_num)
      omega
    rw [← tdiv_ceil fileSize hs]
    simp only [List.length_map, List.length_range]
    exact Int.toNat_of_nonneg hpos
  · have hne : dPath ++ [fileName] ≠ [] := by simp
    simp only [fsStat, if_neg hne]
    exact alFind_alInsert_self _ _ _

theorem copyFromLocal_numBlocks_witness :
    fsStat initialNameNode.fs [] = some .dir ∧
    fsStat initialNameNode.fs ([] ++ ["f"]) = none ∧
    (1 : Int) ≤ 10 ∧
    (∃ reply,
      (runCopyFromLocal initialNameNode [] "f" 10 (fun _ => 0) (fun _ => 0)).2 = .ok reply ∧
      (reply.BlkList.length : Int) = specNumBlocks 10 ∧
      fsStat (runCopyFromLocal initialNameNode [] "f" 10 (fun _ => 0) (fun _ => 0)).1.fs
        ([] ++ ["f"]) = some (.file reply.BlkList)) :=
  ⟨by decide, by decide, by norm_num,
   copyFromLocal_numBlocks initialNameNode [] "f" 10 (fun _ => 0) (fun _ => 0)
     (by decide) (by decide) (by norm_num)⟩

/-! ### Supporting lemmas: Mkdir / MkdirP -/

/-- Whether a stat result is a regular file. -/
def isFileEntry : Option FsEntry → Bool
  | some (.file _) => true
  | _ => false

/-- No prefix of the path (including the path itself) is an existing regular
file — the condition under which `os.MkdirAll` can succeed. -/
def NoFileOnPath (fs : FileSystem) (p : List String) : Prop :=
  ∀ k, k ≤ p.length → isFileEntry (fsStat fs (p.take k)) = false

instance (fs : FileSystem) (p : List String) : Decidable (NoFileOnPath fs p) := by
  unfold NoFileOnPath
  infer_instance

theorem osMkdirAll_ok :
    ∀ (L : Nat) (fs : FileSystem) (p : List String), p.length ≤ L →
      NoFileOnPath fs p →
      ∃ fs2, osMkdirAll fs p = .ok fs2 ∧ fsStat fs2 p = some .dir := by
  intro L
  induction L with
  | zero =>
      intro fs p hL _
      have : p = [] := List.length_eq_zero.mp (by omega)
      subst this
      exact ⟨fs, rfl, rfl⟩
  | succ L ih =>
      intro fs p hL hNF
      cases p with
      | nil => exact ⟨fs, rfl, rfl⟩
      | cons c cs =>
          cases hstat : fsStat fs (c :: cs) with
          | some entry =>
              cases entry with
              | dir =>
                  refine ⟨fs, ?_, hstat⟩
                  rw [osMkdirAll_cons]
                  simp only [hstat]
              | file l =>
                  exfalso
                  have := hNF (c :: cs).length (le_refl _)
                  rw [List.take_length, hstat] at this
                  simp [isFileEntry] at this
          | none =>
              have hNF' : NoFileOnPath fs (c :: cs).dropLast := by
                intro k hk
                have hk' : k ≤ (c :: cs).length := by
                  simp only [List.length_dropLast] at hk
                  omega
                have htake : (c :: cs).dropLast.take k = (c :: cs).take k := by
                  rw [List.dropLast_eq_take, List.take_take]
                  congr 1
                  simp only [List.length_dropLast] at hk
                  omega
                rw [htake]
                exact hNF k hk'
              obtain ⟨fs2, heq, _⟩ := ih fs (c :: cs).dropLast
                (by simp only [List.length_dropLast, List.length_cons] at hL ⊢; omega) hNF'
              refine ⟨alInsert fs2 (c :: cs) .dir, ?_, ?_⟩
              · rw [osMkdirAll_cons]
                simp only [hstat, heq, Except.map]
              · simp only [fsStat, if_neg (by simp : (c :: cs) ≠ [])]
                exact alFind_alInsert_self _ _ _

theorem osMkdirAll_of_dir (fs : FileSystem) (p : List String)
    (h : fsStat fs p = some .dir) : osMkdirAll fs p = .ok fs := by
  cases p with
  | nil => rfl
  | cons c cs =>
      rw [osMkdirAll_cons]
      simp only [h]

/-- Claim C9, counterexample: the claim quantifies over every namespace path,
but `Mkdir` on a path whose parent directory does not exist fails already on
the first call (with NotFound, not success). -/
theorem claim9_counterexample :
    (runMkdir initialNameNode ["a", "b"]).2 = .error .notFound ∧
    (runMkdir initialNameNode ["a", "b"]).2 ≠ .ok "running mkdir" := by
  refine ⟨rfl, ?_⟩
  intro h
  rw [show (runMkdir initialNameNode ["a", "b"]).2 = .error .notFound from rfl] at h
  cases h

/-- Claim C9 (amended — restricted to paths on which the calls can succeed at
all: for MkdirP, no prefix of the path may be an existing regular file; for
Mkdir, the parent must exist as a directory and the path must be absent):
MkdirP twice succeeds both times and leaves the directory existing, while
Mkdir succeeds once and fails with the already-exists error on the second
call, which leaves the state unchanged. -/
theorem mkdir_mkdirp_idem (n : NameNode) (p : List String) :
    (NoFileOnPath n.fs p →
      ∃ n1, runMkdirP n p = (n1, .ok "running mkdirP") ∧
        runMkdirP n1 p = (n1, .ok "running mkdirP") ∧ fsStat n1.fs p = some .dir) ∧
    (fsStat n.fs p = none → fsStat n.fs p.dropLast = some .dir →
      ∃ n1, runMkdir n p = (n1, .ok "running mkdir") ∧
        runMkdir n1 p = (n1, .error .alreadyExists)) := by
  constructor
  · intro h
    obtain ⟨fs2, heq, hdir⟩ := osMkdirAll_ok p.length n.fs p (le_refl _) h
    refine ⟨{ n with fs := fs2 }, ?_, ?_, hdir⟩
    · simp [runMkdirP, heq]
    · simp [runMkdirP, osMkdirAll_of_dir fs2 p hdir]
  · intro h1 h2
    have hp : p ≠ [] := by
      intro hnil
      rw [hnil] at h1
      simp [fsStat] at h1
    have hmk : osMkdir n.fs p = .ok (alInsert n.fs p .dir) := by
      simp only [osMkdir, h1, h2]
    refine ⟨{ n with fs := alInsert n.fs p .dir }, ?_, ?_⟩
    · simp [runMkdir, hmk]
    · have hstat2 : fsStat (alInsert n.fs p .dir) p = some .dir := by
        simp only [fsStat, if_neg hp]
        exact alFind_alInsert_self _ _ _
      simp [runMkdir, osMkdir, hstat2]

theorem mkdir_mkdirp_idem_witness :
    NoFileOnPath initialNameNode.fs ["a"] ∧
    (∃ n1, runMkdirP initialNameNode ["a"] = (n1, .ok "running mkdirP") ∧
      runMkdirP n1 ["a"] = (n1, .ok "running mkdirP") ∧ fsStat n1.fs ["a"] = some .dir) ∧
    fsStat initialNameNode.fs ["a"] = none ∧
    fsStat initialNameNode.fs (["a"].dropLast) = some .dir ∧
    (∃ n1, runMkdir initialNameNode ["a"] = (n1, .ok "running mkdir") ∧
      runMkdir n1 ["a"] = (n1, .error .alreadyExists)) :=
  ⟨by decide,
   (mkdir_mkdirp_idem initialNameNode ["a"]).1 (by decide),
   by decide, by decide,
   (mkdir_mkdirp_idem initialNameNode ["a"]).2 (by decide) (by decide)⟩

/-! ### Supporting lemmas: the invariant on reported storage ids -/

theorem reportFold_mem_cases (addr : String) :
    ∀ (ids : List String) (st : NameNode) (id : String) (l : List String),
      alFind ((ids.foldl (reportOne addr) st).BlkToDatanodes) id = some l →
      ∀ s ∈ l, (∃ l0, alFind st.BlkToDatanodes id = some l0 ∧ s ∈ l0) ∨
        s = alFindD st.Addr2SID addr "" := by
  intro ids
  induction ids with
  | nil =>
      intro st id l h s hs
      exact Or.inl ⟨l, h, hs⟩
  | cons hd tl ih =>
      intro st id l h s hs
      rcases ih (reportOne addr st hd) id l h s hs with ⟨l0, hl0, hsl0⟩ | heq
      · by_cases hid : id = hd
        · subst hid
          rw [reportOne_find_self] at hl0
          have hl0' : alFindD st.BlkToDatanodes id [] ++ [alFindD st.Addr2SID addr ""] = l0 :=
            by injection hl0
          rw [← hl0'] at hsl0
          rcases List.mem_append.mp hsl0 with hmem | hmem
          · cases hfind : alFind st.BlkToDatanodes id with
            | none => simp [alFindD, hfind] at hmem
            | some l1 =>
                left
                refine ⟨l1, rfl, ?_⟩
                simpa [alFindD, hfind] using hmem
          · right
            simpa using hmem
        · rw [reportOne_find_ne addr st hd id hid] at hl0
          exact Or.inl ⟨l0, hl0, hsl0⟩
      · exact Or.inr heq

theorem register_preserves (n : NameNode) (args : RegisterArgs) (ts rnd : Nat)
    (h1 : BlkAddrsOK n) (h2 : Addr2SIDOK n) (ha : args.Addr ≠ "") :
    BlkAddrsOK (Register n args ts rnd).1 ∧ Addr2SIDOK (Register n args ts rnd).1 := by
  constructor
  · intro id l hl s hs
    obtain ⟨a', hfind, hne⟩ := h1 id l hl s hs
    by_cases hsid : s = (Register n args ts rnd).2
    · rw [hsid]
      exact ⟨args.Addr, alFind_alInsert_self _ _ _, ha⟩
    · exact ⟨a', by rw [show (Register n args ts rnd).1.SID2Addr =
        alInsert n.SID2Addr (Register n args ts rnd).2 args.Addr from rfl,
        alFind_alInsert_ne _ _ _ _ hsid]; exact hfind, hne⟩
  · intro ad sid' hfind'
    by_cases had : ad = args.Addr
    · rw [had, show (Register n args ts rnd).1.Addr2SID =
        alInsert n.Addr2SID args.Addr (Register n args ts rnd).2 from rfl,
        alFind_alInsert_self] at hfind'
      have hsid' : sid' = (Register n args ts rnd).2 := by
        injection hfind' with h'
        exact h'.symm
      rw [hsid']
      exact ⟨args.Addr, alFind_alInsert_self _ _ _, ha⟩
    · rw [show (Register n args ts rnd).1.Addr2SID =
        alInsert n.Addr2SID args.Addr (Register n args ts rnd).2 from rfl,
        alFind_alInsert_ne _ _ _ _ had] at hfind'
      obtain ⟨a', hfa, hne⟩ := h2 ad sid' hfind'
      by_cases hsid : sid' = (Register n args ts rnd).2
      · rw [hsid]
        exact ⟨args.Addr, alFind_alInsert_self _ _ _, ha⟩
      · exact ⟨a', by rw [show (Register n args ts rnd).1.SID2Addr =
          alInsert n.SID2Addr (Register n args ts rnd).2 args.Addr from rfl,
          alFind_alInsert_ne _ _ _ _ hsid]; exact hfa, hne⟩

theorem report_preserves (n : NameNode) (addr : String) (ids : List String)
    (h1 : BlkAddrsOK n) (h2 : Addr2SIDOK n)
    (ha : (alFind n.Addr2SID addr).isSome = true) :
    BlkAddrsOK (ReportBlock n addr ids).1 ∧ Addr2SIDOK (ReportBlock n addr ids).1 := by
  have hS : (ReportBlock n addr ids).1.SID2Addr = n.SID2Addr := reportFold_sid2Addr addr ids n
  have hA : (ReportBlock n addr ids).1.Addr2SID = n.Addr2SID := reportFold_addr2SID addr ids n
  constructor
  · intro id l hl s hs
    rcases reportFold_mem_cases addr ids n id l hl s hs with ⟨l0, hl0, hs0⟩ | heq
    · obtain ⟨a', hf, hne⟩ := h1 id l0 hl0 s hs0
      exact ⟨a', by rw [hS]; exact hf, hne⟩
    · obtain ⟨sid0, hsid0⟩ := Option.isSome_iff_exists.mp ha
      have hdef : alFindD n.Addr2SID addr "" = sid0 := by simp [alFindD, hsid0]
      obtain ⟨a', hf, hne⟩ := h2 addr sid0 hsid0
      refine ⟨a', ?_, hne⟩
      rw [hS, heq, hdef]
      exact hf
  · intro ad sid' hf
    rw [hA] at hf
    obtain ⟨a', hfa, hne⟩ := h2 ad sid' hf
    exact ⟨a', by rw [hS]; exact hfa, hne⟩

theorem goodRun_preserves :
    ∀ (ops : List NNOp) (n : NameNode), BlkAddrsOK n → Addr2SIDOK n →
      goodRun n ops = true →
      BlkAddrsOK (runOps n ops) ∧ Addr2SIDOK (runOps n ops) := by
  intro ops
  induction ops with
  | nil => exact fun n h1 h2 _ => ⟨h1, h2⟩
  | cons o rest ih =>
      intro n h1 h2 hgr
      simp only [goodRun, Bool.and_eq_true] at hgr
      obtain ⟨hop, hrest⟩ := hgr
      have hstep : BlkAddrsOK (applyOp n o) ∧ Addr2SIDOK (applyOp n o) := by
        cases o with
        | register h a sid ts rnd =>
            have ha : a ≠ "" := by simpa using of_decide_eq_true hop
            exact register_preserves n ⟨h, a, sid⟩ ts rnd h1 h2 ha
        | report a ids =>
            exact report_preserves n a ids h1 h2 hop
      exact ih (applyOp n o) hstep.1 hstep.2 hrest

/-- Claim C7, counterexample: from the initial state, a single ReportBlock
from an address that never registered places the empty storage id `""` into
the block index, and `SID2Addr` maps it to no (in particular no non-empty)
address — the claimed invariant fails on this Register/ReportBlock-reachable
state. -/
theorem claim7_counterexample :
    ¬ BlkAddrsOK (runOps initialNameNode [.report "a1" ["b"]]) := by
  intro h
  obtain ⟨a, ha, _⟩ := h "b" [""] rfl "" (by simp)
  rw [show alFind (runOps initialNameNode [.report "a1" ["b"]]).SID2Addr "" = none from rfl]
    at ha
  cases ha

/-- Claim C7 (amended — restricted to runs in which every Register carries a
non-empty address and every ReportBlock comes from a currently registered
address; the unrestricted claim fails, see the counterexample): in every
coordinator state reachable by such Register/ReportBlock sequences from the
initial state, every storage id listed in any block-index entry is mapped by
SID2Addr to a non-empty address. -/
theorem blockindex_addrs_invariant (ops : List NNOp)
    (h : goodRun initialNameNode ops = true) :
    BlkAddrsOK (runOps initialNameNode ops) := by
  refine (goodRun_preserves ops initialNameNode ?_ ?_ h).1
  · intro id l hl
    rw [show alFind initialNameNode.BlkToDatanodes id = none from rfl] at hl
    cases hl
  · intro ad sid hf
    rw [show alFind initialNameNode.Addr2SID ad = none from rfl] at hf
    cases hf

theorem blockindex_addrs_invariant_witness :
    goodRun initialNameNode [.register "h1" "a1" "" 5 7, .report "a1" ["b"]] = true ∧
    BlkAddrsOK (runOps initialNameNode [.register "h1" "a1" "" 5 7, .report "a1" ["b"]]) :=
  ⟨by decide, blockindex_addrs_invariant _ (by decide)⟩

/-! ### Claim C8: the mean/variance combine -/

theorem calFold_sums (rs : List CalMVReply) :
    ∀ a : Int × ℚ × ℚ, rs.foldl calStep a =
      (a.1 + (rs.map (·.Cnt)).sum,
       a.2.1 + (rs.map (fun r => r.Mean * (r.Cnt : ℚ))).sum,
       a.2.2 + (rs.map (fun r => r.MeanSQ * (r.Cnt : ℚ))).sum) := by
  induction rs with
  | nil => intro a; simp
  | cons r rest ih =>
      intro a
      simp only [List.foldl_cons, List.map_cons, List.sum_cons, ih, calStep]
      simp only [Prod.mk.injEq]
      refine ⟨by ring, by ring, by ring⟩

/-- Claim C8: when every block has a successful map result, the combine is
exactly totalCount = Σcᵢ, finalMean = (Σmᵢ·cᵢ)/totalCount,
finalVar = (Σsqᵢ·cᵢ)/totalCount − finalMean², and the reply string is
formatted from finalMean and finalVar. -/
theorem calMeanVar_combine (rs : List CalMVReply) :
    (rs.foldl calStep ((0 : Int), (0 : ℚ), (0 : ℚ))).1 = (rs.map (·.Cnt)).sum ∧
    (runCalMeanVar rs).2.1 =
      (rs.map (fun r => r.Mean * (r.Cnt : ℚ))).sum / (((rs.map (·.Cnt)).sum : Int) : ℚ) ∧
    (runCalMeanVar rs).2.2 =
      (rs.map (fun r => r.MeanSQ * (r.Cnt : ℚ))).sum / (((rs.map (·.Cnt)).sum : Int) : ℚ) -
        ((rs.map (fun r => r.Mean * (r.Cnt : ℚ))).sum / (((rs.map (·.Cnt)).sum : Int) : ℚ)) *
          ((rs.map (fun r => r.Mean * (r.Cnt : ℚ))).sum / (((rs.map (·.Cnt)).sum : Int) : ℚ)) ∧
    (runCalMeanVar rs).1 =
      "mean: " ++ toString (runCalMeanVar rs).2.1 ++ ", variance: " ++
        toString (runCalMeanVar rs).2.2 ++ "\n" := by
  have h := calFold_sums rs ((0 : Int), (0 : ℚ), (0 : ℚ))
  refine ⟨?_, ?_, ?_, ?_⟩
  · rw [h]
    simp
  · simp only [runCalMeanVar, h, zero_add]
  · simp only [runCalMeanVar, h, zero_add]
  · simp only [runCalMeanVar, h, zero_add]

/-! ### Claim C10: the timestamp parsed out of the BlockID -/

theorem genSegNameL_split (f : List Char) (i ts rnd : Nat) :
    splitHy (genSegNameL f i ts rnd) =
      splitHy f ++ [pad8 i, natToDec ts, natToDec rnd] := by
  unfold genSegNameL
  rw [splitHy_append_hyphen, splitHy_append_hyphen, splitHy_append_hyphen,
    splitHy_no_hyphen (pad8 i) (pad8_no_hyphen i),
    splitHy_no_hyphen _ (natToDec_no_hyphen ts),
    splitHy_no_hyphen _ (natToDec_no_hyphen rnd)]
  simp

theorem natToDec_ne_nil (n : Nat) : natToDec n ≠ [] := by
  simp only [natToDec, ne_eq, List.map_eq_nil, List.reverse_eq_nil_iff]
  exact toDigitsRev_ne_nil n

theorem goParseInt_natToDec (n : Nat) : goParseInt (natToDec n) = (n : Int) := by
  unfold goParseInt
  rw [if_pos ⟨natToDec_ne_nil n, natToDec_all_digits n⟩, decToNat_natToDec]

/-- Claim C10: SendBlk parses the timestamp as the third hyphen-separated
field of the BlockID.  (1) For a BlockID minted by generateSegName from a
hyphen-free filename, the metadata stores exactly the embedded milliseconds
value.  (2) For a BlockID with fewer than two hyphens the index is out of
range and the handler panics (`none`).  (3) For a filename that itself
contains hyphens the extracted field is not the timestamp: under the format's
side conditions (8-digit index, a timestamp of at least 9 digits that does not
occur verbatim as a field of the filename) the extracted field differs from
the timestamp string. -/
theorem sendBlk_timestamp (d : DataNode) (f : List Char) (i ts rnd : Nat)
    (data : List Nat) (ck len : Nat) :
    ((∀ c ∈ f, c ≠ '-') →
      ∃ d2, SendBlk d ⟨⟨genSegNameL f i ts rnd⟩, data, ck, len⟩ = some (d2, true) ∧
        ∃ m, alFind d2.IDToMetaData ⟨genSegNameL f i ts rnd⟩ = some m ∧
          m.Timestamp = (ts : Int)) ∧
    (∀ b : String, b.data.count '-' < 2 →
      getTimestamp b = none ∧
        SendBlk d { BlkID := b, Data := data, Checksum := ck, Length := len } = none) ∧
    ('-' ∈ f → i < 10 ^ 8 → 10 ^ 8 ≤ ts → natToDec ts ∉ splitHy f →
      ∀ r, getTimestamp ⟨genSegNameL f i ts rnd⟩ = some r → r ≠ natToDec ts) := by
  refine ⟨?_, ?_, ?_⟩
  · intro hf
    have hts : getTimestamp ⟨genSegNameL f i ts rnd⟩ = some (natToDec ts) := by
      show (splitHy (genSegNameL f i ts rnd)).get? 2 = _
      rw [genSegNameL_split, splitHy_no_hyphen f hf]
      rfl
    unfold SendBlk
    rw [hts]
    refine ⟨_, rfl, ?_⟩
    refine ⟨_, alFind_alInsert_self _ _ _, ?_⟩
    simp [goParseInt_natToDec]
  · intro b hb
    have hget : (splitHy b.data).get? 2 = none := by
      apply List.get?_eq_none.mpr
      rw [splitHy_length]
      omega
    have h1 : getTimestamp b = none := hget
    refine ⟨h1, ?_⟩
    unfold SendBlk
    rw [h1]
  · intro hmem hi hts hnot r hr
    have hcount : 0 < f.count '-' := List.count_pos_iff_mem.mpr hmem
    have hr' : (splitHy f ++ [pad8 i, natToDec ts, natToDec rnd]).get? 2 = some r := by
      rw [← genSegNameL_split]
      exact hr
    have hlenf : 2 ≤ (splitHy f).length := by
      rw [splitHy_length]
      omega
    by_cases h2 : (splitHy f).length = 2
    · rw [List.get?_append_right (by omega)] at hr'
      rw [h2] at hr'
      simp only [Nat.sub_self, List.get?] at hr'
      have hrp : r = pad8 i := by
        injection hr' with h'
        exact h'.symm
      intro heq
      rw [heq] at hrp
      have hl1 : (natToDec ts).length = 8 := by rw [hrp]; exact pad8_length i hi
      have hl2 : 9 ≤ (natToDec ts).length := natToDec_length_ge_nine ts hts
      omega
    · rw [List.get?_append (by omega)] at hr'
      exact fun heq => hnot (heq ▸ List.get?_mem hr')

/-- An empty datanode, used to evaluate SendBlk on concrete inputs. -/
def emptyDataNode : DataNode := { IDToMetaData := [], actData := [] }

theorem sendBlk_timestamp_witness :
    (∀ c ∈ (['a'] : List Char), c ≠ '-') ∧
    (∃ d2, SendBlk emptyDataNode ⟨⟨genSegNameL ['a'] 0 100 7⟩, [1, 2], 9, 2⟩ =
        some (d2, true) ∧
      ∃ m, alFind d2.IDToMetaData ⟨genSegNameL ['a'] 0 100 7⟩ = some m ∧
        m.Timestamp = (100 : Int)) ∧
    getTimestamp "ab" = none :=
  ⟨by decide,
   (sendBlk_timestamp emptyDataNode ['a'] 0 100 7 [1, 2] 9 2).1 (by decide),
   ((sendBlk_timestamp emptyDataNode ['a'] 0 100 7 [1, 2] 9 2).2.1 "ab" (by decide)).1⟩

/-! ### Claim C1: the client read loop appends once per intact replica -/

/-- A network oracle on which every replica returns the same intact block:
payload [1,2,3] with its correct CRC. -/
def dupNet : String → String → BlkData :=
  fun _ _ =>
    { BlkID := "b", Data := [1, 2, 3], Checksum := ChecksumIEEE [1, 2, 3], Length := 3 }

/-- Claim C1, evaluation at the failing input: with two non-empty replica
addresses both holding an intact copy, the client's read loop appends the
payload twice (the source has no break after the first accepted replica); with
a single replica it appends it once.  This contradicts the specified read
path, which accepts only the first matching replica. -/
theorem claim1_read_path_duplicates :
    clientRunCopyToLocal ["b"] [("b", ["a1", "a2"])] dupNet = [1, 2, 3, 1, 2, 3] ∧
    clientRunCopyToLocal ["b"] [("b", ["a1"])] dupNet = [1, 2, 3] ∧
    ([1, 2, 3, 1, 2, 3] : List Nat) ≠ [1, 2, 3] :=
  ⟨by decide, by decide, by decide⟩
